import Mathlib

/-!
Verification of the directory-tree scanning and aggregation engine of the
Disk-space-Analyzer repository.

The development shallowly embeds the core of the repository:

* the portable recursive walker of src/main/utils/scanner.ts
  (scanDirectory / scanRecursive / getDirSize),
* the fast external-tool scanner of src/main/utils/fastScanner.ts
  (scanDirectoryFast close handler, buildTree, calculateDirectorySizes),
* the in-memory tree surgery removeDeletedPathsFromTree of the renderer store,
* the ConcurrencyLimiter of scanner.ts as an event-level transition system.

The filesystem is modelled as a tree of entries; possible per-entry stat and
readdir failures are explicit Boolean flags, so the catch-and-continue error
tolerance of the source is representable.  Machine integers of the source are
JavaScript numbers holding byte counts; they are modelled as Nat (the source
never subtracts and cannot overflow the exact-integer range in scope here).
All definitions are computable and reduce by rfl, so concrete runs of the
embedded code can be evaluated inside proofs.
-/

/- One node of the scan result, mirroring the DirectoryNode interface of
scanner.ts: name, path, size, children, isDirectory.  Children form a
NodeList (an explicit list type, mutually defined so that all recursions
over trees are structural). -/
mutual
inductive DirectoryNode : Type where
  | mk (name path : String) (size : Nat) (children : NodeList)
      (isDirectory : Bool) : DirectoryNode
inductive NodeList : Type where
  | nil : NodeList
  | cons (n : DirectoryNode) (rest : NodeList) : NodeList
end

deriving instance DecidableEq for DirectoryNode
deriving instance DecidableEq for NodeList

def DirectoryNode.name : DirectoryNode → String
  | .mk n _ _ _ _ => n

def DirectoryNode.path : DirectoryNode → String
  | .mk _ p _ _ _ => p

def DirectoryNode.size : DirectoryNode → Nat
  | .mk _ _ s _ _ => s

def DirectoryNode.children : DirectoryNode → NodeList
  | .mk _ _ _ c _ => c

def DirectoryNode.isDirectory : DirectoryNode → Bool
  | .mk _ _ _ _ d => d

/- Sum of the sizes of the nodes of a list (the totalSize accumulation of
scanRecursive and the childrenSize accumulation of calculateDirectorySizes). -/
def nlSum : NodeList → Nat
  | .nil => 0
  | .cons n rest => n.size + nlSum rest

def nlIsEmpty : NodeList → Bool
  | .nil => true
  | .cons _ _ => false

/- The filesystem as seen by the walker.  A file carries its byte size and a
flag telling whether lstat on it fails; a directory carries its named entries,
a flag for lstat failure and a flag for readdir failure.  Symbolic links are
never followed by the source, so their targets are not modelled. -/
mutual
inductive FSEntry : Type where
  | file (sz : Nat) (statFail : Bool) : FSEntry
  | symlink : FSEntry
  | dir (es : FSEntries) (statFail readFail : Bool) : FSEntry
inductive FSEntries : Type where
  | nil : FSEntries
  | cons (nm : String) (e : FSEntry) (rest : FSEntries) : FSEntries
end

deriving instance DecidableEq for FSEntry
deriving instance DecidableEq for FSEntries

/- getDirSize of scanner.ts: the unbounded-depth size-only traversal.
readdir failure yields 0 for that directory (the catch swallowing the error);
a symbolic link contributes 0; a file whose lstat fails contributes 0;
subdirectories are recursed into without any depth bound. -/
mutual
def getDirSize : FSEntry → Nat
  | .file _ _ => 0
  | .symlink => 0
  | .dir es _ rf => if rf then 0 else entriesSize es
def entriesSize : FSEntries → Nat
  | .nil => 0
  | .cons _ (.file sz sf) rest => (if sf then 0 else sz) + entriesSize rest
  | .cons _ .symlink rest => entriesSize rest
  | .cons _ (.dir es sf rf) rest => getDirSize (.dir es sf rf) + entriesSize rest
end

/- The true full-depth byte total of a subtree: every file's size counted,
symbolic links as zero, ignoring all failure flags.  This is the
specification-side reference value that getDirSize is compared against. -/
mutual
def trueSize : FSEntry → Nat
  | .file sz _ => sz
  | .symlink => 0
  | .dir es _ _ => trueEntriesSize es
def trueEntriesSize : FSEntries → Nat
  | .nil => 0
  | .cons _ e rest => trueSize e + trueEntriesSize rest
end

/- No stat or readdir failure anywhere in the subtree. -/
mutual
def noFail : FSEntry → Bool
  | .file _ sf => !sf
  | .symlink => true
  | .dir es sf rf => !sf && !rf && noFailEntries es
def noFailEntries : FSEntries → Bool
  | .nil => true
  | .cons _ e rest => noFail e && noFailEntries rest
end

/- scanRecursive of scanner.ts.  Arguments: the ignore matcher (the compiled
root .gitignore consulted through ig.ignores, abstracted as a Boolean test on
root-relative paths), the maxDepth option, the filesystem entry at the current
path, the absolute path, the base name, the root-relative path (empty for the
root, so that the falsy-string guard of the source never ignores the root),
and the current depth.  scanChildren is the entries.map body: the per-entry
path join, the entry-level ignore check (an ignored directory becomes a
childless node sized by getDirSize, an ignored file or any symbolic link is
dropped), recursion into subdirectories at depth + 1, and files kept with
their lstat size or dropped when lstat fails. -/
mutual
def scanRecursive (ig : String → Bool) (maxDepth : Nat) :
    FSEntry → String → String → String → Nat → DirectoryNode
  | .file sz sf, path, name, _, _ =>
    if sf then .mk name path 0 .nil false else .mk name path sz .nil false
  | .symlink, path, name, _, _ => .mk name path 0 .nil false
  | .dir es sf rf, path, name, rel, depth =>
    if sf then .mk name path 0 .nil false
    else if rel != "" && ig rel then
      .mk name path (getDirSize (.dir es sf rf)) .nil true
    else if maxDepth ≤ depth then
      .mk name path (getDirSize (.dir es sf rf)) .nil true
    else if rf then .mk name path 0 .nil true
    else
      let ch := scanChildren ig maxDepth es path rel (depth + 1)
      .mk name path (nlSum ch) ch true
def scanChildren (ig : String → Bool) (maxDepth : Nat) :
    FSEntries → String → String → Nat → NodeList
  | .nil, _, _, _ => .nil
  | .cons n e rest, path, rel, depth =>
    let childPath := path ++ "/" ++ n
    let childRel := if rel == "" then n else rel ++ "/" ++ n
    let tail := scanChildren ig maxDepth rest path rel depth
    if childRel != "" && ig childRel then
      match e with
      | .symlink => tail
      | .dir es sf rf =>
        .cons (.mk n childPath (getDirSize (.dir es sf rf)) .nil true) tail
      | .file _ _ => tail
    else
      match e with
      | .symlink => tail
      | .dir es sf rf =>
        .cons (scanRecursive ig maxDepth (.dir es sf rf) childPath n childRel
          depth) tail
      | .file sz sf => if sf then tail else .cons (.mk n childPath sz .nil false) tail
end

/-- The root-name computation of scanDirectory:
rootPath.split on / or backslash, pop, falling back to rootPath when the last
segment is empty. -/
def rootName (p : String) : String :=
  let seg := (p.data.reverse.takeWhile (fun c => !(c = '/' || c = '\\'))).reverse
  if seg = [] then p else String.mk seg

/-- scanDirectory of scanner.ts: maxDepth defaults to 10, the walk starts at
the root with empty relative path and depth 0. -/
def scanDirectory (ig : String → Bool) (maxDepthOpt : Option Nat)
    (fs : FSEntry) (rootPath : String) : DirectoryNode :=
  scanRecursive ig (maxDepthOpt.getD 10) fs rootPath (rootName rootPath) "" 0

/- Fast path (fastScanner.ts).  One record per line of the find | xargs stat
stream: byte size, absolute path, and whether stat reported a Directory.
The node name is recomputed from the path exactly as in the rl line handler
(path.split on slash, pop, falling back to the path itself). -/
structure FlatRec where
  path : String
  size : Nat
  isDir : Bool
deriving DecidableEq

/-- path.split on slash then pop, with the path itself as fallback for an
empty last segment — the name computation of the fast scanner line parser. -/
def recName (p : String) : String :=
  let seg := (p.data.reverse.takeWhile (fun c => c ≠ '/')).reverse
  if seg = [] then p else String.mk seg

/-- JavaScript Map.set semantics over an insertion-ordered association list:
an existing key keeps its position and takes the new value, a new key is
appended. -/
def setRec (m : List FlatRec) (r : FlatRec) : List FlatRec :=
  if m.any (fun x => x.path == r.path) then
    m.map (fun x => if x.path == r.path then r else x)
  else m ++ [r]

/-- The nodes Map accumulated by the rl line handler of scanDirectoryFast. -/
def buildMap (rs : List FlatRec) : List FlatRec :=
  rs.foldl setRec []

/-- path.substring(0, path.lastIndexOf('/')), or none when the path holds no
slash (the continue branch of buildTree). -/
def parentPath (p : String) : Option String :=
  if p.data.contains '/' then
    some (String.mk (((p.data.reverse.dropWhile (fun c => c ≠ '/')).drop 1).reverse))
  else none

/-- The records buildTree pushes as children of the node at path p: every
record of the map other than the root record whose parent path is p, in map
order. -/
def childRecs (m : List FlatRec) (rootPath p : String) : List FlatRec :=
  m.filter (fun r => r.path != rootPath && parentPath r.path == some p)

/-- A node is marked isDirectory by buildTree when stat reported Directory,
when it is the root, or when at least one child was pushed into it. -/
def recIsDir (m : List FlatRec) (rootPath : String) (r : FlatRec) : Bool :=
  r.isDir || r.path == rootPath ||
    m.any (fun c => c.path != rootPath && parentPath c.path == some r.path)

def nlOfList : List DirectoryNode → NodeList
  | [] => .nil
  | n :: rest => .cons n (nlOfList rest)

/-- The hierarchy buildTree assembles by pushing every record into its parent
node.  Since every pushed child has a strictly longer path than its parent,
parent chains in the map are shorter than the map itself, so fuel
m.length + 1 makes the fuelled recursion exact on every input reachable from
the source. -/
def buildNodeF : Nat → List FlatRec → String → FlatRec → DirectoryNode
  | 0, m, rootPath, r =>
    .mk (recName r.path) r.path r.size .nil (recIsDir m rootPath r)
  | fuel + 1, m, rootPath, r =>
    .mk (recName r.path) r.path r.size
      (nlOfList ((childRecs m rootPath r.path).map (buildNodeF fuel m rootPath)))
      (recIsDir m rootPath r)

/- The du size map consulted by calculateDirectorySizes (dirSizes.get). -/
def duLookup (du : List (String × Nat)) (p : String) : Option Nat :=
  (du.find? (fun x => x.1 == p)).map (fun x => x.2)

/- calculateDirectorySizes of fastScanner.ts, functionally: a non-directory
node is returned with its own stat size; a directory node has its children
resolved first, then takes the authoritative du total for its path when one
exists and the children sum otherwise. -/
mutual
def calcSizes (du : List (String × Nat)) : DirectoryNode → DirectoryNode
  | .mk name path sz ch isDir =>
    if !isDir then .mk name path sz ch isDir
    else
      let ch2 := calcSizesList du ch
      match duLookup du path with
      | some real => .mk name path real ch2 true
      | none => .mk name path (nlSum ch2) ch2 true
def calcSizesList (du : List (String × Nat)) : NodeList → NodeList
  | .nil => .nil
  | .cons n rest => .cons (calcSizes du n) (calcSizesList du rest)
end

/-- The two error shapes scanDirectoryFast can reject with from its close
handler: the command-failure rejection built from stderr, and the
root-not-found error thrown by buildTree. -/
inductive FastScanError : Type where
  | commandFailed (stderr : String) : FastScanError
  | rootNotFound : FastScanError
deriving DecidableEq

/-- buildTree of fastScanner.ts: locate the root record, throw when the map is
non-empty yet holds no root, return null (modelled none) when the map is
empty, and otherwise assemble the hierarchy and resolve sizes through
calculateDirectorySizes. -/
def buildTreeE (m : List FlatRec) (du : List (String × Nat))
    (rootPath : String) : Except FastScanError (Option DirectoryNode) :=
  match m.find? (fun r => r.path == rootPath) with
  | some r => .ok (some (calcSizes du (buildNodeF (m.length + 1) m rootPath r)))
  | none => if m.isEmpty then .ok none else .error .rootNotFound

/- The close handler of scanDirectoryFast: given the find process exit code,
its stderr, the parsed stream records, the du size map and the root path, it
rejects with the command failure when the exit code is non-zero and the node
map is empty, and otherwise builds the tree (which may itself throw). -/
def closeHandler (code : Nat) (stderr : String) (lines : List FlatRec)
    (du : List (String × Nat)) (rootPath : String) :
    Except FastScanError (Option DirectoryNode) :=
  let m := buildMap lines
  if code != 0 && m.isEmpty then .error (.commandFailed stderr)
  else buildTreeE m du rootPath

/- removeDeletedPathsFromTree of the renderer store (tree surgeon).  A node
whose path is in deletedPaths is dropped (none); a non-directory node or a
node with no children is returned as-is; otherwise every child is pruned
recursively, dropped children are omitted, and the size is recomputed as the
sum of the retained children's updated sizes.  pruneChildren returns the
retained children together with that sum, mirroring the updatedChildren /
newSize accumulation of the source. -/
mutual
def removeDeletedPathsFromTree : DirectoryNode → List String → Option DirectoryNode
  | .mk name path sz ch isDir, deletedPaths =>
    if deletedPaths.contains path then none
    else if !isDir || nlIsEmpty ch then some (.mk name path sz ch isDir)
    else
      let pruned := pruneChildren ch deletedPaths
      some (.mk name path (if isDir then pruned.2 else sz) pruned.1 isDir)
def pruneChildren : NodeList → List String → NodeList × Nat
  | .nil, _ => (.nil, 0)
  | .cons n rest, deletedPaths =>
    let tail := pruneChildren rest deletedPaths
    match removeDeletedPathsFromTree n deletedPaths with
    | none => tail
    | some n2 => (.cons n2 tail.1, n2.size + tail.2)
end

/-- State of the ConcurrencyLimiter of scanner.ts: active is the count of
tasks between their active increment and their finally-block decrement (the
tasks whose fn is executing), queued is the length of the internal resolver
queue, and woken counts callers whose queued promise has been resolved by a
finishing task but whose continuation (the active increment) has not run
yet. -/
structure LimiterState where
  active : Nat
  queued : Nat
  woken : Nat
deriving DecidableEq

/-- Event-level semantics of ConcurrencyLimiter.run.  Each step is one
synchronous segment of the source between suspension points:
arriveRun — a run call finds active below the limit, skips the queue and
increments active, its task now executing; arriveWait — a run call at or
above the limit pushes its resolver and suspends; finishWake — a finishing
task decrements active, shifts one resolver and resolves it (the woken caller
is now scheduled but has not resumed); finishIdle — a finishing task
decrements active with nobody queued; wake — a woken caller resumes,
unconditionally incrementing active (the source rechecks nothing after its
await). -/
inductive LimiterStep (limit : Nat) : LimiterState → LimiterState → Prop where
  | arriveRun (s : LimiterState) : s.active < limit →
      LimiterStep limit s ⟨s.active + 1, s.queued, s.woken⟩
  | arriveWait (s : LimiterState) : limit ≤ s.active →
      LimiterStep limit s ⟨s.active, s.queued + 1, s.woken⟩
  | finishWake (s : LimiterState) : 0 < s.active → 0 < s.queued →
      LimiterStep limit s ⟨s.active - 1, s.queued - 1, s.woken + 1⟩
  | finishIdle (s : LimiterState) : 0 < s.active → s.queued = 0 →
      LimiterStep limit s ⟨s.active - 1, s.queued, s.woken⟩
  | wake (s : LimiterState) : 0 < s.woken →
      LimiterStep limit s ⟨s.active + 1, s.queued, s.woken - 1⟩

/-- Reachability from a fresh limiter (no active, queued or woken tasks). -/
def LimiterReachable (limit : Nat) (s : LimiterState) : Prop :=
  Relation.ReflTransGen (LimiterStep limit) ⟨0, 0, 0⟩ s

/- Specification-side tree predicates. -/

/- treeAll p t: the predicate p holds at every node of the tree t. -/
mutual
def treeAll (p : DirectoryNode → Bool) : DirectoryNode → Bool
  | .mk name path sz ch isDir =>
    p (.mk name path sz ch isDir) && listAllTree p ch
def listAllTree (p : DirectoryNode → Bool) : NodeList → Bool
  | .nil => true
  | .cons n rest => treeAll p n && listAllTree p rest
end

/-- A node with children has size equal to the sum of the children's sizes
(leaves and childless directories are unconstrained). -/
def sumOkNode (n : DirectoryNode) : Bool :=
  nlIsEmpty n.children || (n.size == nlSum n.children)

/-- The per-node reading of claim C1 as stated: every directory node's size
equals the sum of its children's sizes. -/
def dirSumClaim (n : DirectoryNode) : Bool :=
  !n.isDirectory || (n.size == nlSum n.children)

/-- The per-node sum property for the fast path: a directory node with no
authoritative du total has size equal to the sum of its children's sizes. -/
def fastSumOk (du : List (String × Nat)) (n : DirectoryNode) : Bool :=
  !n.isDirectory || (duLookup du n.path).isSome || (n.size == nlSum n.children)

/-- Every non-directory node of the tree is childless (true of every tree
either scanner produces). -/
def nonDirChildless (t : DirectoryNode) : Bool :=
  treeAll (fun n => n.isDirectory || nlIsEmpty n.children) t

/- depthLE t k: every node of t lies at depth at most k below t. -/
mutual
def depthLE : DirectoryNode → Nat → Bool
  | .mk _ _ _ ch _, k => childrenDepthLE ch k
def childrenDepthLE : NodeList → Nat → Bool
  | .nil, _ => true
  | .cons n rest, k =>
    (match k with
     | 0 => false
     | k2 + 1 => depthLE n k2) && childrenDepthLE rest k
end

/- First node of the tree (preorder) whose path is p. -/
mutual
def findNode : DirectoryNode → String → Option DirectoryNode
  | .mk name path sz ch isDir, p =>
    if path == p then some (.mk name path sz ch isDir) else findInList ch p
def findInList : NodeList → String → Option DirectoryNode
  | .nil, _ => none
  | .cons n rest, p =>
    match findNode n p with
    | some r => some r
    | none => findInList rest p
end

/-- Drop the symbolic-link entries of a directory listing. -/
def dropSymlinks : FSEntries → FSEntries
  | .nil => .nil
  | .cons _ .symlink rest => dropSymlinks rest
  | .cons nm (.file sz sf) rest => .cons nm (.file sz sf) (dropSymlinks rest)
  | .cons nm (.dir es sf rf) rest => .cons nm (.dir es sf rf) (dropSymlinks rest)

/- Some node of the tree has its path in the deleted set. -/
mutual
def occursDeleted : DirectoryNode → List String → Bool
  | .mk _ path _ ch _, deletedPaths =>
    deletedPaths.contains path || occursDeletedList ch deletedPaths
def occursDeletedList : NodeList → List String → Bool
  | .nil, _ => false
  | .cons n rest, deletedPaths =>
    occursDeleted n deletedPaths || occursDeletedList rest deletedPaths
end

/- Total size removed by pruning, following the traversal structure of
removeDeletedPathsFromTree: a deleted node contributes its whole size, a
surviving leaf or childless node contributes nothing (the pruner never looks
inside it), and a surviving expanded directory contributes the removal total
of its children. -/
mutual
def removedSize : DirectoryNode → List String → Nat
  | .mk _ path sz ch isDir, deletedPaths =>
    if deletedPaths.contains path then sz
    else if !isDir || nlIsEmpty ch then 0
    else removedSizeList ch deletedPaths
def removedSizeList : NodeList → List String → Nat
  | .nil, _ => 0
  | .cons n rest, deletedPaths =>
    removedSize n deletedPaths + removedSizeList rest deletedPaths
end

/- The child-sum invariant under which pruning is size-exact: every directory
node with children has size equal to the sum of its children's sizes, and the
same holds inside every child. -/
mutual
def pruneInv : DirectoryNode → Bool
  | .mk _ _ sz ch isDir =>
    (!isDir || nlIsEmpty ch) || ((sz == nlSum ch) && pruneInvList ch)
def pruneInvList : NodeList → Bool
  | .nil => true
  | .cons n rest => pruneInv n && pruneInvList rest
end

/-- The scan-directory IPC handler of main.ts: it rejects with the
"Directory does not exist" error when existsSync fails on the requested root,
before any scanner runs; otherwise on a non-Windows platform it tries the
fast path first and falls back to the portable walker when the fast path
rejects, and on Windows it runs the portable walker directly.  The fast-path
outcome is a parameter of the model, since it is produced by external
processes. -/
def scanDirectoryHandler (rootExists isWin : Bool)
    (fastOutcome : Except FastScanError DirectoryNode) (ig : String → Bool)
    (maxDepthOpt : Option Nat) (fs : FSEntry) (rootPath : String) :
    Except String DirectoryNode :=
  if !rootExists then .error "Directory does not exist"
  else if !isWin then
    match fastOutcome with
    | .ok t => .ok t
    | .error _ => .ok (scanDirectory ig maxDepthOpt fs rootPath)
  else .ok (scanDirectory ig maxDepthOpt fs rootPath)

/- Concrete inputs used by the counterexamples and witnesses. -/

/-- A root holding one subdirectory b with one 200-byte file c.txt. -/
def cexFS1 : FSEntry :=
  .dir (.cons "b" (.dir (.cons "c.txt" (.file 200 false) .nil) false false) .nil)
    false false

/-- A directory tree carrying an authoritative external total: the root
claims 100 bytes while its single 30-byte child sums to 30 (the shape
calculateDirectorySizes produces when du reports a total differing from the
children sum). -/
def cexTree4 : DirectoryNode :=
  .mk "r" "/r" 100 (.cons (.mk "a" "/r/a" 30 .nil false) .nil) true

/-- A tree whose subdirectory a carries an authoritative total of 100 bytes
over a single 30-byte file, next to a 5-byte file b. -/
def cexTree5 : DirectoryNode :=
  .mk "r" "/r" 105
    (.cons (.mk "a" "/r/a" 100 (.cons (.mk "f" "/r/a/f" 30 .nil false) .nil) true)
      (.cons (.mk "b" "/r/b" 5 .nil false) .nil)) true

/-- A tree satisfying the child-sum invariant: a 300-byte root over a
100-byte file and a 200-byte subdirectory holding one 200-byte file. -/
def invTree : DirectoryNode :=
  .mk "r" "/r" 300
    (.cons (.mk "a.txt" "/r/a.txt" 100 .nil false)
      (.cons (.mk "b" "/r/b" 200 (.cons (.mk "c.txt" "/r/b/c.txt" 200 .nil false) .nil) true)
        .nil)) true

/-- The ignore matcher compiled from a root rule file holding the single rule
node_modules/ — modelled from the documented gitignore semantics of the
external ignore package (§4.2 of the specification): a directory-only pattern
matches the directory itself and every path below it. -/
def igNodeModules : String → Bool := fun s =>
  s == "node_modules" || ("node_modules/".data).isPrefixOf s.data

/-- The node_modules subtree of the ignore-matching scenario: pkg/file.txt of
n bytes. -/
def nmSubtree (n : Nat) : FSEntry :=
  .dir (.cons "pkg" (.dir (.cons "file.txt" (.file n false) .nil) false false) .nil)
    false false

/-- A scan root holding a g-byte .gitignore and node_modules/pkg/file.txt of
n bytes. -/
def fsNodeModules (n g : Nat) : FSEntry :=
  .dir (.cons ".gitignore" (.file g false) (.cons "node_modules" (nmSubtree n) .nil))
    false false

/-- A scan root whose only entry is a symbolic link. -/
def cexFS9 : FSEntry := .dir (.cons "link" .symlink .nil) false false

/-- The tree the fast path builds from a root record and one file record,
with an authoritative du total of 8192 bytes on the root. -/
def fastTreeEx : DirectoryNode :=
  buildNodeF 3 [⟨"/r", 4096, true⟩, ⟨"/r/a.txt", 100, false⟩] "/r" ⟨"/r", 4096, true⟩

/- Helper lemmas. -/

mutual
theorem dir_getDirSize_eq_trueSize : ∀ (es : FSEntries) (sf rf : Bool),
    noFail (.dir es sf rf) = true →
    getDirSize (.dir es sf rf) = trueSize (.dir es sf rf)
  | es, sf, rf => by
    intro h
    simp only [noFail, Bool.and_eq_true, Bool.not_eq_true'] at h
    simp [getDirSize, trueSize, h.1.2,
      entriesSize_eq_trueEntriesSize es h.2]
theorem entriesSize_eq_trueEntriesSize : ∀ es : FSEntries,
    noFailEntries es = true → entriesSize es = trueEntriesSize es
  | .nil => by intro; rfl
  | .cons nm (.file sz sf) rest => by
    intro h
    simp only [noFailEntries, noFail, Bool.and_eq_true, Bool.not_eq_true'] at h
    simp [entriesSize, trueEntriesSize, trueSize, h.1,
      entriesSize_eq_trueEntriesSize rest h.2]
  | .cons nm .symlink rest => by
    intro h
    simp only [noFailEntries, noFail, Bool.and_eq_true, true_and] at h
    simp only [entriesSize, trueEntriesSize, trueSize, Nat.zero_add,
      entriesSize_eq_trueEntriesSize rest h]
  | .cons nm (.dir es sf rf) rest => by
    intro h
    simp only [noFailEntries, Bool.and_eq_true] at h
    simp only [entriesSize, trueEntriesSize,
      dir_getDirSize_eq_trueSize es sf rf h.1,
      entriesSize_eq_trueEntriesSize rest h.2]
end

mutual
theorem occursDeleted_nil : ∀ t : DirectoryNode, occursDeleted t [] = false
  | .mk name path sz ch isDir => by
    simp only [occursDeleted, List.contains, List.elem_nil, Bool.false_or]
    exact occursDeletedList_nil ch
theorem occursDeletedList_nil : ∀ ch : NodeList, occursDeletedList ch [] = false
  | .nil => rfl
  | .cons n rest => by
    simp only [occursDeletedList, occursDeleted_nil n, occursDeletedList_nil rest,
      Bool.or_self]
end

mutual
theorem scan_sumOk : ∀ (ig : String → Bool) (md : Nat) (e : FSEntry)
    (path name rel : String) (depth : Nat),
    treeAll sumOkNode (scanRecursive ig md e path name rel depth) = true
  | ig, md, .file sz sf, path, name, rel, depth => by
    cases sf <;>
      simp [scanRecursive, treeAll, listAllTree, sumOkNode, nlIsEmpty,
        DirectoryNode.children]
  | ig, md, .symlink, path, name, rel, depth => by
    simp [scanRecursive, treeAll, listAllTree, sumOkNode, nlIsEmpty,
      DirectoryNode.children]
  | ig, md, .dir es sf rf, path, name, rel, depth => by
    cases sf with
    | true =>
      simp [scanRecursive, treeAll, listAllTree, sumOkNode, nlIsEmpty,
        DirectoryNode.children]
    | false =>
      by_cases hig : (rel != "" && ig rel) = true
      · simp [scanRecursive, hig, treeAll, listAllTree, sumOkNode, nlIsEmpty,
          DirectoryNode.children]
      · by_cases hd : md ≤ depth
        · simp [scanRecursive, hig, hd, treeAll, listAllTree, sumOkNode,
            nlIsEmpty, DirectoryNode.children]
        · cases rf with
          | true =>
            simp [scanRecursive, hig, hd, treeAll, listAllTree, sumOkNode,
              nlIsEmpty, DirectoryNode.children]
          | false =>
            simp [scanRecursive, hig, hd, treeAll, sumOkNode, nlIsEmpty,
              DirectoryNode.children, DirectoryNode.size,
              scanChildren_sumOk ig md es path rel (depth + 1)]
theorem scanChildren_sumOk : ∀ (ig : String → Bool) (md : Nat) (es : FSEntries)
    (path rel : String) (depth : Nat),
    listAllTree sumOkNode (scanChildren ig md es path rel depth) = true
  | ig, md, .nil, path, rel, depth => rfl
  | ig, md, .cons nm e rest, path, rel, depth => by
    cases e with
    | file sz sf =>
      simp only [scanChildren]
      split_ifs <;>
        simp [treeAll, listAllTree, sumOkNode, nlIsEmpty,
          DirectoryNode.children, scanChildren_sumOk ig md rest path rel depth]
    | symlink =>
      simp only [scanChildren]
      split_ifs <;> exact scanChildren_sumOk ig md rest path rel depth
    | dir es2 sf rf =>
      simp only [scanChildren]
      generalize (if rel == "" then nm else rel ++ "/" ++ nm) = r
      split_ifs with h
      · simp [treeAll, listAllTree, sumOkNode, nlIsEmpty,
          DirectoryNode.children, scanChildren_sumOk ig md rest path rel depth]
      · simp [listAllTree,
          scan_sumOk ig md (.dir es2 sf rf) (path ++ "/" ++ nm) nm r depth,
          scanChildren_sumOk ig md rest path rel depth]
end

theorem depthLE_nilChildren (name path : String) (sz : Nat) (b : Bool)
    (k : Nat) : depthLE (.mk name path sz .nil b) k = true := rfl

mutual
theorem scan_depthLE : ∀ (ig : String → Bool) (md : Nat) (e : FSEntry)
    (path name rel : String) (depth : Nat), depth ≤ md →
    depthLE (scanRecursive ig md e path name rel depth) (md - depth) = true
  | ig, md, .file sz sf, path, name, rel, depth => by
    intro h
    cases sf <;> simp [scanRecursive, depthLE_nilChildren]
  | ig, md, .symlink, path, name, rel, depth => by
    intro h
    simp [scanRecursive, depthLE_nilChildren]
  | ig, md, .dir es sf rf, path, name, rel, depth => by
    intro h
    simp only [scanRecursive]
    split_ifs
    any_goals exact depthLE_nilChildren _ _ _ _ _
    rename_i h1 h2 h3 h4
    have hlt : depth < md := Nat.lt_of_not_le h3
    have heq : md - depth = (md - (depth + 1)) + 1 := by omega
    simp only [depthLE, heq]
    exact scanChildren_depthLE ig md es path rel (depth + 1) hlt
theorem scanChildren_depthLE : ∀ (ig : String → Bool) (md : Nat)
    (es : FSEntries) (path rel : String) (depth : Nat), depth ≤ md →
    childrenDepthLE (scanChildren ig md es path rel depth) (md - depth + 1) = true
  | ig, md, .nil, path, rel, depth => by intro h; rfl
  | ig, md, .cons nm e rest, path, rel, depth => by
    intro h
    cases e with
    | file sz sf =>
      simp only [scanChildren]
      split_ifs <;>
        simp [childrenDepthLE, depthLE_nilChildren,
          scanChildren_depthLE ig md rest path rel depth h]
    | symlink =>
      simp only [scanChildren]
      split_ifs <;> exact scanChildren_depthLE ig md rest path rel depth h
    | dir es2 sf rf =>
      simp only [scanChildren]
      generalize (if rel == "" then nm else rel ++ "/" ++ nm) = r
      split_ifs with h1
      · simp [childrenDepthLE, depthLE_nilChildren,
          scanChildren_depthLE ig md rest path rel depth h]
      · simp [childrenDepthLE,
          scan_depthLE ig md (.dir es2 sf rf) (path ++ "/" ++ nm) nm r depth h,
          scanChildren_depthLE ig md rest path rel depth h]
end

mutual
theorem calc_fastSumOk : ∀ (du : List (String × Nat)) (t : DirectoryNode),
    nonDirChildless t = true → treeAll (fastSumOk du) (calcSizes du t) = true
  | du, .mk name path sz ch isDir => by
    intro h
    simp only [nonDirChildless, treeAll, Bool.and_eq_true] at h
    cases isDir with
    | false =>
      have hch : nlIsEmpty ch = true := by
        simpa [DirectoryNode.isDirectory, DirectoryNode.children] using h.1
      cases ch with
      | nil =>
        simp [calcSizes, treeAll, listAllTree, fastSumOk, nlIsEmpty,
          DirectoryNode.children, DirectoryNode.isDirectory]
      | cons n rest => simp [nlIsEmpty] at hch
    | true =>
      simp only [calcSizes, Bool.not_true, Bool.false_eq_true, if_false]
      cases hdu : duLookup du path with
      | some real =>
        simp [treeAll, fastSumOk, DirectoryNode.isDirectory,
          DirectoryNode.path, DirectoryNode.children, hdu,
          calcList_fastSumOk du ch h.2]
      | none =>
        simp [treeAll, fastSumOk, DirectoryNode.isDirectory,
          DirectoryNode.path, DirectoryNode.children, DirectoryNode.size,
          calcList_fastSumOk du ch h.2]
theorem calcList_fastSumOk : ∀ (du : List (String × Nat)) (ch : NodeList),
    listAllTree (fun n => n.isDirectory || nlIsEmpty n.children) ch = true →
    listAllTree (fastSumOk du) (calcSizesList du ch) = true
  | du, .nil => by intro h; rfl
  | du, .cons n rest => by
    intro h
    simp only [listAllTree, Bool.and_eq_true] at h
    simp [calcSizesList, listAllTree, calc_fastSumOk du n h.1,
      calcList_fastSumOk du rest h.2]
end

mutual
theorem prune_noDeleted : ∀ (t : DirectoryNode) (D : List String),
    pruneInv t = true → occursDeleted t D = false →
    removeDeletedPathsFromTree t D = some t
  | .mk name path sz ch isDir, D => by
    intro hinv hocc
    simp only [occursDeleted, Bool.or_eq_false_iff] at hocc
    have hni : path ∉ D := by simpa using hocc.1
    cases isDir with
    | false => simp [removeDeletedPathsFromTree, hni]
    | true =>
      cases ch with
      | nil => simp [removeDeletedPathsFromTree, hni, nlIsEmpty]
      | cons c rest =>
        have hinv2 : (sz == nlSum (.cons c rest)) = true ∧
            pruneInvList (.cons c rest) = true := by
          simpa [pruneInv, nlIsEmpty] using hinv
        have hsz : sz = nlSum (NodeList.cons c rest) := by simpa using hinv2.1
        have hpc := pruneChildren_noDeleted (.cons c rest) D hinv2.2 hocc.2
        simp [removeDeletedPathsFromTree, hni, nlIsEmpty, hpc, hsz]
theorem pruneChildren_noDeleted : ∀ (ch : NodeList) (D : List String),
    pruneInvList ch = true → occursDeletedList ch D = false →
    pruneChildren ch D = (ch, nlSum ch)
  | .nil, D => by intro _ _; rfl
  | .cons n rest, D => by
    intro hinv hocc
    simp only [pruneInvList, Bool.and_eq_true] at hinv
    simp only [occursDeletedList, Bool.or_eq_false_iff] at hocc
    simp [pruneChildren, pruneChildren_noDeleted rest D hinv.2 hocc.2,
      prune_noDeleted n D hinv.1 hocc.1, nlSum]
end

mutual
theorem prune_size_eq : ∀ (t : DirectoryNode) (D : List String),
    pruneInv t = true → D.contains t.path = false →
    ∃ t2, removeDeletedPathsFromTree t D = some t2 ∧
      t2.size + removedSize t D = t.size
  | .mk name path sz ch isDir, D => by
    intro hinv hc
    simp only [DirectoryNode.path] at hc
    have hni : path ∉ D := by simpa using hc
    cases isDir with
    | false =>
      refine ⟨.mk name path sz ch false, ?_, ?_⟩
      · simp [removeDeletedPathsFromTree, hni]
      · simp [removedSize, hni, DirectoryNode.size]
    | true =>
      cases ch with
      | nil =>
        refine ⟨.mk name path sz .nil true, ?_, ?_⟩
        · simp [removeDeletedPathsFromTree, hni, nlIsEmpty]
        · simp [removedSize, hni, nlIsEmpty, DirectoryNode.size]
      | cons c rest =>
        have hinv2 : (sz == nlSum (.cons c rest)) = true ∧
            pruneInvList (.cons c rest) = true := by
          simpa [pruneInv, nlIsEmpty] using hinv
        have hsz : sz = nlSum (NodeList.cons c rest) := by simpa using hinv2.1
        have hlist := pruneChildren_size_eq (.cons c rest) D hinv2.2
        refine ⟨.mk name path (pruneChildren (.cons c rest) D).2
          (pruneChildren (.cons c rest) D).1 true, ?_, ?_⟩
        · simp [removeDeletedPathsFromTree, hni, nlIsEmpty]
        · have hrm : removedSize (.mk name path sz (.cons c rest) true) D =
              removedSizeList (.cons c rest) D := by
            simp [removedSize, hni, nlIsEmpty]
          rw [hrm, DirectoryNode.size, DirectoryNode.size]
          omega
theorem pruneChildren_size_eq : ∀ (ch : NodeList) (D : List String),
    pruneInvList ch = true →
    (pruneChildren ch D).2 + removedSizeList ch D = nlSum ch
  | .nil, D => by intro _; rfl
  | .cons n rest, D => by
    intro hinv
    simp only [pruneInvList, Bool.and_eq_true] at hinv
    have htail := pruneChildren_size_eq rest D hinv.2
    by_cases hc : D.contains n.path = true
    · have hmem : n.path ∈ D := by simpa using hc
      have hdrop : removeDeletedPathsFromTree n D = none := by
        cases n with
        | mk a b c d e =>
          simp only [DirectoryNode.path] at hmem
          simp [removeDeletedPathsFromTree, hmem]
      have hrs : removedSize n D = n.size := by
        cases n with
        | mk a b c d e =>
          simp only [DirectoryNode.path] at hmem
          simp [removedSize, hmem, DirectoryNode.size]
      simp only [pruneChildren, hdrop, removedSizeList, hrs, nlSum]
      omega
    · have hc2 : D.contains n.path = false := by
        simpa using hc
      obtain ⟨n2, hp, hs⟩ := prune_size_eq n D hinv.1 hc2
      simp only [pruneChildren, hp, removedSizeList, nlSum]
      omega
end

theorem scanChildren_dropSymlinks : ∀ (ig : String → Bool) (md : Nat)
    (es : FSEntries) (path rel : String) (depth : Nat),
    scanChildren ig md es path rel depth =
      scanChildren ig md (dropSymlinks es) path rel depth
  | ig, md, .nil, path, rel, depth => rfl
  | ig, md, .cons nm (.file sz sf) rest, path, rel, depth => by
    simp only [scanChildren, dropSymlinks,
      scanChildren_dropSymlinks ig md rest path rel depth]
  | ig, md, .cons nm .symlink rest, path, rel, depth => by
    simp only [scanChildren, dropSymlinks,
      scanChildren_dropSymlinks ig md rest path rel depth]
    split_ifs <;> rfl
  | ig, md, .cons nm (.dir es2 sf rf) rest, path, rel, depth => by
    simp only [scanChildren, dropSymlinks,
      scanChildren_dropSymlinks ig md rest path rel depth]

/- Claim theorems. -/

/-- Claim C1, counterexample to the claim as stated: scanning a root holding
one subdirectory b (with a 200-byte file) at maxDepth 1 yields a directory
node for b that was truncated at the depth ceiling: it has no children yet
size 200, so a directory node with no authoritative external total whose size
differs from its children's sum exists in a tree the portable walker
returns. -/
theorem C1_counterexample :
    treeAll dirSumClaim (scanDirectory (fun _ => false) (some 1) cexFS1 "/r") =
      false := by decide

/-- Claim C1 (amended): in every tree of the portable walker, every node with
a non-empty children list has size equal to the sum of its children's sizes,
recursively (ignored and depth-truncated directories have empty children and
carry their full subtree size instead); in every tree the fast path resolves
through calculateDirectorySizes — whose input reconstruction only ever gives
children to directory nodes — every directory node without an authoritative
du total has size equal to the sum of its children's sizes, recursively. -/
theorem C1_sum_invariant :
    (∀ (ig : String → Bool) (maxDepthOpt : Option Nat) (fs : FSEntry)
      (rootPath : String),
      treeAll sumOkNode (scanDirectory ig maxDepthOpt fs rootPath) = true) ∧
    (∀ (du : List (String × Nat)) (t : DirectoryNode),
      nonDirChildless t = true →
      treeAll (fastSumOk du) (calcSizes du t) = true) :=
  ⟨fun ig maxDepthOpt fs rootPath =>
    scan_sumOk ig (maxDepthOpt.getD 10) fs rootPath (rootName rootPath) "" 0,
   calc_fastSumOk⟩

/-- Claim C1, witness: the fast-path conjunct applied to the concrete tree
built from a root record with du total 8192 over one 100-byte file. -/
theorem C1_sum_invariant_witness :
    treeAll (fastSumOk [("/r", 8192)]) (calcSizes [("/r", 8192)] fastTreeEx) =
      true :=
  C1_sum_invariant.2 [("/r", 8192)] fastTreeEx (by decide)

/-- Claim C2: the ConcurrencyLimiter admits a reachable state in which more
tasks execute concurrently than the configured bound.  With limit 1 the
trace is: task A arrives and runs; task B arrives and queues; A finishes and
wakes B; task C arrives, sees active = 0 below the limit and runs; B resumes
and increments active without any recheck — two tasks now execute under a
bound of one. -/
theorem C2_limit_exceeded : ∃ s, LimiterReachable 1 s ∧ 1 < s.active := by
  refine ⟨⟨2, 0, 0⟩, ?_, by norm_num⟩
  have h1 : LimiterStep 1 ⟨0, 0, 0⟩ ⟨1, 0, 0⟩ :=
    .arriveRun ⟨0, 0, 0⟩ (by norm_num)
  have h2 : LimiterStep 1 ⟨1, 0, 0⟩ ⟨1, 1, 0⟩ :=
    .arriveWait ⟨1, 0, 0⟩ (by norm_num)
  have h3 : LimiterStep 1 ⟨1, 1, 0⟩ ⟨0, 0, 1⟩ :=
    .finishWake ⟨1, 1, 0⟩ (by norm_num) (by norm_num)
  have h4 : LimiterStep 1 ⟨0, 0, 1⟩ ⟨1, 0, 1⟩ :=
    .arriveRun ⟨0, 0, 1⟩ (by norm_num)
  have h5 : LimiterStep 1 ⟨1, 0, 1⟩ ⟨2, 0, 0⟩ :=
    .wake ⟨1, 0, 1⟩ (by norm_num)
  exact .tail (.tail (.tail (.tail (.single h1) h2) h3) h4) h5

/-- Claim C3: a scan by the portable walker with requested depth d places no
node more than d levels below the root, and a directory node truncated at the
depth ceiling (failure-free so that the true total is well defined) still has
size equal to the full-depth recursive byte total of its subtree, with empty
children. -/
theorem C3_depth_bound :
    (∀ (ig : String → Bool) (maxDepthOpt : Option Nat) (fs : FSEntry)
      (rootPath : String),
      depthLE (scanDirectory ig maxDepthOpt fs rootPath)
        (maxDepthOpt.getD 10) = true) ∧
    (∀ (ig : String → Bool) (md : Nat) (es : FSEntries) (sf rf : Bool)
      (path name rel : String) (depth : Nat),
      noFail (.dir es sf rf) = true → md ≤ depth →
      scanRecursive ig md (.dir es sf rf) path name rel depth =
        .mk name path (trueSize (.dir es sf rf)) .nil true) := by
  constructor
  · intro ig maxDepthOpt fs rootPath
    have h := scan_depthLE ig (maxDepthOpt.getD 10) fs rootPath
      (rootName rootPath) "" 0 (Nat.zero_le _)
    simpa [scanDirectory] using h
  · intro ig md es sf rf path name rel depth hnf hmd
    have hflags : (sf = false ∧ rf = false) ∧ noFailEntries es = true := by
      simpa [noFail, Bool.and_eq_true, Bool.not_eq_true'] using hnf
    obtain ⟨⟨hsf, hrf⟩, hnes⟩ := hflags
    subst hsf; subst hrf
    have hgds := dir_getDirSize_eq_trueSize es false false hnf
    simp [scanRecursive, hmd, hgds]

/-- Claim C3, witness: the depth-bound conjunct on the concrete b/c.txt tree
at depth 2, and the truncation conjunct on a root scanned at maxDepth 0 over
a single 7-byte file. -/
theorem C3_depth_bound_witness :
    depthLE (scanDirectory (fun _ => false) (some 2) cexFS1 "/r") 2 = true ∧
    scanRecursive (fun _ => false) 0
        (.dir (.cons "f" (.file 7 false) .nil) false false) "/r" "r" "" 0 =
      .mk "r" "/r" (trueSize (.dir (.cons "f" (.file 7 false) .nil) false false))
        .nil true :=
  ⟨C3_depth_bound.1 (fun _ => false) (some 2) cexFS1 "/r",
   C3_depth_bound.2 (fun _ => false) 0 (.cons "f" (.file 7 false) .nil)
     false false "/r" "r" "" 0 (by decide) (by decide)⟩

/-- Claim C4, counterexample to the claim as stated: pruning with an empty
deleted set is not the identity on every tree.  On a tree whose root carries
an authoritative external total (size 100 over a single 30-byte child, the
shape calculateDirectorySizes produces from a du total), pruning recomputes
the root size to the 30-byte children sum, so the result differs from the
input. -/
theorem C4_counterexample :
    removeDeletedPathsFromTree cexTree4 [] ≠ some cexTree4 := by decide

/-- Claim C4 (amended): pruning with an empty deleted-path set returns the
tree unchanged on every tree satisfying the child-sum invariant (every
directory node with children has size equal to the sum of its children's
sizes, recursively); in general the pruner recomputes each non-empty
directory's size bottom-up, so trees carrying stale authoritative totals are
renormalized instead of preserved. -/
theorem C4_prune_empty (t : DirectoryNode) (h : pruneInv t = true) :
    removeDeletedPathsFromTree t [] = some t :=
  prune_noDeleted t [] h (occursDeleted_nil t)

/-- Claim C4, witness: pruning the concrete 300-byte invariant-satisfying
tree with the empty set returns it unchanged. -/
theorem C4_prune_empty_witness :
    removeDeletedPathsFromTree invTree [] = some invTree :=
  C4_prune_empty invTree (by decide)

/-- Claim C5, counterexample to the claim as stated: deleting the 5-byte file
/r/b changes the size of /r/a — a node outside the ancestor chain of any
deleted node (/r/b does not lie in the subtree of /r/a) — from its
authoritative 100 bytes to its 30-byte children sum. -/
theorem C5_counterexample :
    ((removeDeletedPathsFromTree cexTree5 ["/r/b"]).bind
        (fun t => findNode t "/r/a")).map DirectoryNode.size = some 30 ∧
    (findNode cexTree5 "/r/a").map DirectoryNode.size = some 100 ∧
    (findNode cexTree5 "/r/a").bind (fun t => findNode t "/r/b") = none := by
  decide

/-- Claim C5 (amended): on trees satisfying the child-sum invariant, pruning
is size-exact: a subtree containing no deleted path is returned entirely
unchanged (so nodes outside the ancestor chains of deleted nodes keep their
sizes), and every surviving node's new size plus the total size of the
maximal deleted subtrees below it equals its old size — ancestors of deleted
nodes therefore decrease exactly by the removed bytes, strictly unless the
removed subtrees were empty of bytes.  Trees with stale authoritative totals
can instead change size at arbitrary directories, as the counterexample
shows. -/
theorem C5_prune_sizes (t : DirectoryNode) (D : List String)
    (h : pruneInv t = true) :
    (occursDeleted t D = false → removeDeletedPathsFromTree t D = some t) ∧
    (D.contains t.path = false →
      ∃ t2, removeDeletedPathsFromTree t D = some t2 ∧
        t2.size + removedSize t D = t.size) :=
  ⟨fun ho => prune_noDeleted t D h ho, fun hc => prune_size_eq t D h hc⟩

/-- Claim C5, witness: deleting the 200-byte file /r/b/c.txt from the
invariant-satisfying tree yields a pruned tree whose root size dropped by
exactly the removed 200 bytes. -/
theorem C5_prune_sizes_witness :
    ∃ t2, removeDeletedPathsFromTree invTree ["/r/b/c.txt"] = some t2 ∧
      t2.size + removedSize invTree ["/r/b/c.txt"] = invTree.size :=
  (C5_prune_sizes invTree ["/r/b/c.txt"] (by decide)).2 (by decide)

/-- Claim C6, counterexample to the claim as stated: a stat failure on the
scan root is not fatal to the walker — scanRecursive catches it and returns
an empty zero-size leaf node, a tree, rather than surfacing an error. -/
theorem C6_counterexample :
    scanDirectory (fun _ => false) none (.dir .nil true false) "/gone" =
      .mk "gone" "/gone" 0 .nil false := by decide

/-- Claim C6 (amended): the root-existence failure is detected by the IPC
caller, not the walker: the scan-directory handler rejects with the
"Directory does not exist" error, with no tree, whenever existsSync fails on
the root, before any scanner runs; the walker itself, when lstat fails on the
root directory, does not fail but returns a zero-size childless
non-directory leaf. -/
theorem C6_root_missing :
    (∀ (isWin : Bool) (fastOutcome : Except FastScanError DirectoryNode)
      (ig : String → Bool) (maxDepthOpt : Option Nat) (fs : FSEntry)
      (rootPath : String),
      scanDirectoryHandler false isWin fastOutcome ig maxDepthOpt fs rootPath =
        .error "Directory does not exist") ∧
    (∀ (ig : String → Bool) (md : Nat) (es : FSEntries) (rf : Bool)
      (path name rel : String) (depth : Nat),
      scanRecursive ig md (.dir es true rf) path name rel depth =
        .mk name path 0 .nil false) :=
  ⟨fun _ _ _ _ _ _ => rfl, fun _ _ _ _ _ _ _ _ => rfl⟩

/-- Claim C7, counterexample to the claim as stated: the fast scanner rejects
with the command-failure error when find exits non-zero having produced zero
records even though the du stream produced records, so rejection does not
require both output streams to be empty. -/
theorem C7_counterexample :
    closeHandler 1 "find: permission denied" [] [("/r", 4096)] "/r" =
      .error (.commandFailed "find: permission denied") ∧
    ([("/r", 4096)] : List (String × Nat)) ≠ [] := ⟨rfl, by decide⟩

/-- Claim C7 (amended): the fast scanner's close handler rejects with the
command-failure (enumeration) error exactly when the find process exited
non-zero and its stream produced zero records; the du stream is never
consulted for this decision (a du failure always resolves with whatever
sizes were collected).  With records present a non-zero exit code is
tolerated, and with a zero exit code and no records the handler resolves
with no tree rather than rejecting. -/
theorem C7_reject_condition (code : Nat) (stderr : String)
    (lines : List FlatRec) (du : List (String × Nat)) (rootPath : String) :
    closeHandler code stderr lines du rootPath =
        .error (.commandFailed stderr) ↔
      code ≠ 0 ∧ buildMap lines = [] := by
  by_cases hcond : (code != 0 && (buildMap lines).isEmpty) = true
  · have hrhs : code ≠ 0 ∧ buildMap lines = [] := by
      simpa [List.isEmpty_iff, bne_iff_ne] using hcond
    simp [closeHandler, hcond, hrhs]
  · have hrhs : ¬(code ≠ 0 ∧ buildMap lines = []) := by
      simp only [Bool.and_eq_true, bne_iff_ne, List.isEmpty_iff] at hcond
      tauto
    simp only [closeHandler]
    rw [if_neg (by simpa using hcond)]
    rw [iff_false_intro hrhs]
    simp only [iff_false]
    cases hf : (buildMap lines).find? (fun r => r.path == rootPath) with
    | some r => simp [buildTreeE, hf]
    | none =>
      by_cases he : (buildMap lines).isEmpty = true
      · simp [buildTreeE, hf, he]
      · simp [buildTreeE, hf, he]

/-- Claim C8: with the root rule file holding the rule node_modules/ and the
scan root containing node_modules/pkg/file.txt of n bytes (next to the
g-byte rule file itself), the portable walker's node for node_modules is a
childless directory node whose size is the getDirSize size-only traversal
total of that subtree, which equals the true recursive byte total; the
maxDepth 1 scan shows the traversal is unbounded in depth, since file.txt
lies below the ceiling yet is fully counted. -/
theorem C8_ignored_subtree (n g : Nat) :
    findNode (scanDirectory igNodeModules (some 1) (fsNodeModules n g) "/r")
        "/r/node_modules" =
      some (.mk "node_modules" "/r/node_modules" (getDirSize (nmSubtree n))
        .nil true) ∧
    getDirSize (nmSubtree n) = trueSize (nmSubtree n) := ⟨rfl, rfl⟩

/-- Claim C9, counterexample to the claim as stated: scanning a root whose
only entry is a symbolic link yields a tree with no children at all — the
symlink encountered as a directory entry does not appear as a leaf node, it
is omitted from the result entirely. -/
theorem C9_counterexample :
    scanDirectory (fun _ => false) (some 10) cexFS9 "/r" =
        .mk "r" "/r" 0 .nil true ∧
    findNode (scanDirectory (fun _ => false) (some 10) cexFS9 "/r") "/r/link" =
      none := ⟨rfl, rfl⟩

/-- Claim C9 (amended): a symbolic link at the scan root is returned as a
zero-size childless non-directory leaf; a symbolic link encountered as a
directory entry is dropped from the children entirely (the children of every
scanned directory equal those of the same directory with its symlink entries
removed), contributing nothing to the result. -/
theorem C9_symlink_handling :
    (∀ (ig : String → Bool) (md : Nat) (path name rel : String) (depth : Nat),
      scanRecursive ig md .symlink path name rel depth =
        .mk name path 0 .nil false) ∧
    (∀ (ig : String → Bool) (md : Nat) (es : FSEntries) (path rel : String)
      (depth : Nat),
      scanChildren ig md es path rel depth =
        scanChildren ig md (dropSymlinks es) path rel depth) :=
  ⟨fun _ _ _ _ _ _ => rfl, scanChildren_dropSymlinks⟩

/-- Claim C10: a node whose path is not deleted and that is not a directory
or has no children is returned by removeDeletedPathsFromTree entirely
unchanged — in particular ignored and depth-truncated directories
(isDirectory true, children empty) keep their previously computed full-depth
sizes through pruning instead of having them recomputed to zero from the
empty children list. -/
theorem C10_leaf_preserved (name path : String) (sz : Nat) (ch : NodeList)
    (isDir : Bool) (D : List String) (hc : D.contains path = false)
    (hleaf : isDir = false ∨ ch = .nil) :
    removeDeletedPathsFromTree (.mk name path sz ch isDir) D =
      some (.mk name path sz ch isDir) := by
  have hni : path ∉ D := by simpa using hc
  rcases hleaf with h | h
  · subst h; simp [removeDeletedPathsFromTree, hni]
  · subst h; simp [removeDeletedPathsFromTree, hni, nlIsEmpty]

/-- Claim C10, witness: a truncated 500-byte node_modules directory node
survives a pruning that deletes an unrelated path, with its size intact. -/
theorem C10_leaf_preserved_witness :
    removeDeletedPathsFromTree (.mk "node_modules" "/r/node_modules" 500 .nil true)
        ["/r/x"] =
      some (.mk "node_modules" "/r/node_modules" 500 .nil true) :=
  C10_leaf_preserved "node_modules" "/r/node_modules" 500 .nil true ["/r/x"]
    (by decide) (Or.inr rfl)
